import Mathlib

/-!
Shallow embedding of the Master control plane of the CLOUDPRJT distributed
blob store (backend/master/metadata_store.py, placement.py, service.py and
backend/grpc/master_server.py), together with proofs about the frozen claims.

Modelling conventions: Python ints are `Int`; `time.time()` floats are
modelled as integer timestamps passed explicitly (`now`), since the code only
stores and compares them; `load_factor` is likewise an opaque integer scalar
that is only stored.  Python dicts keyed by an id field are association lists
in insertion order (replace-in-place on an existing key, append otherwise),
matching dict semantics.  The sqlite snapshot mirror and the prometheus
counters are observability-only and are not modelled.
-/

/-- `NodeState` dataclass of metadata_store.py. -/
structure NodeState where
  node_id : String
  host : String
  grpc_port : Int
  capacity_bytes : Int
  free_bytes : Int
  mac : String
  last_seen : Int
  healthy : Bool
  load_factor : Int
deriving Repr, DecidableEq

/-- `ChunkPlacement` dataclass of metadata_store.py. -/
structure ChunkPlacement where
  chunk_id : String
  chunk_index : Int
  replicas : List String
deriving Repr, DecidableEq

/-- `FileRecord` dataclass of metadata_store.py. -/
structure FileRecord where
  file_id : String
  file_name : String
  file_size : Int
  chunk_size : Int
  placements : List ChunkPlacement
deriving Repr, DecidableEq

/-- `Settings` dataclass of common/config.py (the four master-side fields). -/
structure Settings where
  chunk_size : Int
  replication_factor : Int
  heartbeat_interval : Int
  heartbeat_timeout : Int
deriving Repr, DecidableEq

/-- The mutable state of `MetadataStore`: `_nodes` and `_files`, both Python
dicts keyed by `node_id` / `file_id`, kept here as lists in insertion order. -/
structure MetadataStore where
  nodes : List NodeState
  files : List FileRecord
deriving Repr, DecidableEq

/-- The state of a `MasterService` instance: its settings, its store, and the
`pending_rebalances` queue of `(chunk_id, source, target)` triples. -/
structure ServiceState where
  settings : Settings
  store : MetadataStore
  pending : List (String × String × String)
deriving Repr, DecidableEq

/-- Python-dict assignment `d[n.node_id] = n`: replace the entry with that key
in place, else append. -/
def dictInsertNode (n : NodeState) : List NodeState → List NodeState
  | [] => [n]
  | m :: ms => if m.node_id = n.node_id then n :: ms else m :: dictInsertNode n ms

/-- In-place field update of the node with the given id, as
`MetadataStore.update_heartbeat` performs after `self._nodes.get` succeeds. -/
def hbNodes (nid : String) (free load now : Int) : List NodeState → List NodeState
  | [] => []
  | m :: ms =>
    if m.node_id = nid then
      { m with free_bytes := free, last_seen := now, healthy := true, load_factor := load } :: ms
    else m :: hbNodes nid free load now ms

/-- In-place `healthy = False` of the node with the given id
(`MetadataStore.mark_unhealthy`). -/
def muNodes (nid : String) : List NodeState → List NodeState
  | [] => []
  | m :: ms => if m.node_id = nid then { m with healthy := false } :: ms else m :: muNodes nid ms

/-- Python-dict assignment `self._files[record.file_id] = record`
(`MetadataStore.put_file`). -/
def putFiles (rec : FileRecord) : List FileRecord → List FileRecord
  | [] => [rec]
  | r :: rs => if r.file_id = rec.file_id then rec :: rs else r :: putFiles rec rs

/-- `MasterService.register_node`: builds a `NodeState` with `last_seen = now`,
`healthy = True`, `load_factor = 0.0` and stores it (`register_node` of the
store always returns True). -/
def registerNode (store : MetadataStore) (nid host : String) (port cap free : Int)
    (mac : String) (now : Int) : MetadataStore :=
  { store with nodes := dictInsertNode ⟨nid, host, port, cap, free, mac, now, true, 0⟩ store.nodes }

/-- `MetadataStore.update_heartbeat`: unknown node id fails and changes
nothing; a known node gets exactly `free_bytes`, `last_seen = now`,
`healthy = True` and `load_factor` updated. -/
def updateHeartbeat (store : MetadataStore) (nid : String) (free load now : Int) :
    Bool × MetadataStore :=
  if store.nodes.any (fun m => m.node_id == nid) then
    (true, { store with nodes := hbNodes nid free load now store.nodes })
  else (false, store)

/-- `MetadataStore.mark_unhealthy`: clears the healthy flag; silent when the
node is unknown. -/
def markUnhealthy (store : MetadataStore) (nid : String) : MetadataStore :=
  { store with nodes := muNodes nid store.nodes }

/-- `MetadataStore.list_healthy_nodes`: registered nodes whose last heartbeat
is within the timeout and whose healthy flag is set. -/
def listHealthyNodes (store : MetadataStore) (s : Settings) (now : Int) : List NodeState :=
  store.nodes.filter (fun n => decide (now - n.last_seen ≤ s.heartbeat_timeout) && n.healthy)

/-- `MetadataStore.put_file`. -/
def putFile (store : MetadataStore) (rec : FileRecord) : MetadataStore :=
  { store with files := putFiles rec store.files }

/-- `if node_id not in target.replicas: target.replicas.append(node_id)` in
`MetadataStore.update_chunk_replica`. -/
def addReplica (p : ChunkPlacement) (nid : String) : ChunkPlacement :=
  if p.replicas.contains nid then p else { p with replicas := p.replicas ++ [nid] }

/-- The placement walk of `MetadataStore.update_chunk_replica`: find the first
placement with the given chunk id and append the replica to it; when no
placement matches, append a fresh placement at `chunk_index` holding the
replica. -/
def ucrPlacements (cid : String) (idx : Int) (nid : String) :
    List ChunkPlacement → List ChunkPlacement
  | [] => [⟨cid, idx, [nid]⟩]
  | p :: ps =>
    if p.chunk_id = cid then addReplica p nid :: ps else p :: ucrPlacements cid idx nid ps

/-- The file walk of `MetadataStore.update_chunk_replica`: a missing file id
leaves the store untouched (the commit is silently dropped); otherwise the
record's placements are updated in place. -/
def ucrFiles (fid cid : String) (idx : Int) (nid : String) : List FileRecord → List FileRecord
  | [] => []
  | r :: rs =>
    if r.file_id = fid then { r with placements := ucrPlacements cid idx nid r.placements } :: rs
    else r :: ucrFiles fid cid idx nid rs

/-- `MetadataStore.update_chunk_replica`. -/
def updateChunkReplica (store : MetadataStore) (fid cid : String) (idx : Int) (nid : String) :
    MetadataStore :=
  { store with files := ucrFiles fid cid idx nid store.files }

/-- `MasterService.record_chunk_stored`: create a minimal empty record when the
file is unknown, then `update_chunk_replica`. -/
def recordChunkStored (store : MetadataStore) (fid fname : String) (fsize csize : Int)
    (cid : String) (cidx : Int) (nid : String) : MetadataStore :=
  let store1 :=
    if store.files.any (fun r => r.file_id == fid) then store
    else putFile store ⟨fid, fname, fsize, csize, []⟩
  updateChunkReplica store1 fid cid cidx nid

/-- Modelled from the spec: `delete_node(id)` removes the node and does not
touch file placements.  The implementing method is missing from src —
`master_server.MasterGrpc.DeleteNode` calls `self.service.delete_node`, which
exists neither on `MasterService` nor on `MetadataStore`; spec §4.1 and §4.5
define it as removal from the registry with placements not rewritten, with
`ok=false` when the node is unknown. -/
def deleteNode (store : MetadataStore) (nid : String) : Bool × MetadataStore :=
  (store.nodes.any (fun n => n.node_id == nid),
   { store with nodes := store.nodes.filter (fun n => !(n.node_id == nid)) })

/-- The replica list of the first placement with the given chunk id, `[]`
when absent. -/
def repPl : List ChunkPlacement → String → List String
  | [], _ => []
  | p :: ps, c => if p.chunk_id = c then p.replicas else repPl ps c

/-- The replica list of chunk `c` of the first record with file id `f`, `[]`
when absent. -/
def repFiles : List FileRecord → String → String → List String
  | [], _, _ => []
  | r :: rs, f, c => if r.file_id = f then repPl r.placements c else repFiles rs f c

/-- The current replica list of chunk `cid` of file `fid` in the store (first
matching record, first matching placement), `[]` when absent. -/
def replicasOf (store : MetadataStore) (fid cid : String) : List String :=
  repFiles store.files fid cid

/-- The loop of `MasterService.take_rebalances_for`: split the pending queue
into the instructions targeted at `nid` (returned) and the rest (kept), both
in queue order. -/
def takeRebalancesFor (pending : List (String × String × String)) (nid : String) :
    List (String × String × String) × List (String × String × String) :=
  match pending with
  | [] => ([], [])
  | i :: rest =>
    let r := takeRebalancesFor rest nid
    if i.2.2 = nid then (i :: r.1, r.2) else (r.1, i :: r.2)

/-- Ceiling division over the integers: `math.ceil(a / b)` of placement.py for
a positive divisor (the float detour of the source is idealized away). -/
def ceilDivInt (a b : Int) : Int := -((-a).ediv b)

/-- Python slice `l[:i]`, including the negative-bound case that drops the
last `-i` elements. -/
def pyTake {α : Type} (i : Int) (l : List α) : List α :=
  if 0 ≤ i then l.take i.toNat else l.take (l.length - (-i).toNat)

/-- The ranking used by `placement._pick_nodes`:
`sorted(nodes, key=lambda n: (n.free_bytes, -n.grpc_port), reverse=True)`,
i.e. free bytes descending with ties broken by grpc port ascending.  The
relation is non-strict so that insertion sort reproduces Python's stable
sort. -/
def pickRank (a b : NodeState) : Prop :=
  b.free_bytes < a.free_bytes ∨ (a.free_bytes = b.free_bytes ∧ a.grpc_port ≤ b.grpc_port)

instance : DecidableRel pickRank := fun a b =>
  inferInstanceAs (Decidable (b.free_bytes < a.free_bytes ∨
    (a.free_bytes = b.free_bytes ∧ a.grpc_port ≤ b.grpc_port)))

instance : IsTotal NodeState pickRank := by
  constructor; intro a b; unfold pickRank; omega

instance : IsTrans NodeState pickRank := by
  constructor; intro a b c hab hbc; unfold pickRank at *; omega

/-- The ranking the spec's words claim for the placement planner (free bytes
descending, ties by transport port DESCENDING); kept only to compare the
claim against the code. -/
def pickRankSpecPortDesc (a b : NodeState) : Prop :=
  b.free_bytes < a.free_bytes ∨ (a.free_bytes = b.free_bytes ∧ b.grpc_port ≤ a.grpc_port)

instance : DecidableRel pickRankSpecPortDesc := fun a b =>
  inferInstanceAs (Decidable (b.free_bytes < a.free_bytes ∨
    (a.free_bytes = b.free_bytes ∧ b.grpc_port ≤ a.grpc_port)))

/-- `placement._pick_nodes`. -/
def pickNodes (nodes : List NodeState) (replication : Int) : List NodeState :=
  pyTake replication (List.insertionSort pickRank nodes)

/-- `placement.plan_upload` as declared in placement.py, with four parameters
(the body uses `file_size`, the settings and the healthy list; `file_name` is
declared but unused).  The chunk-id generator stands in for
`secrets.token_hex(16)`.  Note the arity mismatch at the service layer:
service.py line 90 (and the planner's own test) pass a fifth leading
`file_id` argument, so the service-level call raises `TypeError` before this
body runs — see `getUploadPlan`; this definition embeds the planner as it
behaves when called directly with its four declared arguments. -/
def planUpload (file_size : Int) (s : Settings) (healthy : List NodeState)
    (gen : Nat → String) : Int × List ChunkPlacement :=
  let chunk_size := s.chunk_size
  let total_chunks : Int := if file_size = 0 then 1 else ceilDivInt file_size chunk_size
  (chunk_size,
    (List.range total_chunks.toNat).map (fun idx =>
      { chunk_id := gen idx, chunk_index := (idx : Int),
        replicas := (pickNodes healthy s.replication_factor).map (fun n => n.node_id) }))

/-- The dict comprehension `{n.node_id: n for n in list_healthy_nodes()}` of
`MasterService.plan_rebalances` (value list in key-insertion order). -/
def nodesDict (l : List NodeState) : List NodeState :=
  l.foldl (fun acc n => dictInsertNode n acc) []

/-- `file.chunk_size or self.settings.chunk_size`: a zero recorded chunk size
falls back to the configured default. -/
def effChunkSize (s : Settings) (f : FileRecord) : Int :=
  if f.chunk_size = 0 then s.chunk_size else f.chunk_size

/-- `[rid for rid in placement.replicas if rid in healthy]`. -/
def healthyReplicas (healthy : List NodeState) (p : ChunkPlacement) : List String :=
  p.replicas.filter (fun rid => healthy.any (fun n => n.node_id == rid))

/-- `deficit = replication_factor - len(healthy_replicas)`. -/
def chunkDeficit (s : Settings) (healthy : List NodeState) (p : ChunkPlacement) : Int :=
  s.replication_factor - (healthyReplicas healthy p).length

/-- The ranking used for rebalance candidates and sources:
`key=lambda n: (n.free_bytes, n.capacity_bytes), reverse=True`. -/
def balRank (a b : NodeState) : Prop :=
  b.free_bytes < a.free_bytes ∨ (a.free_bytes = b.free_bytes ∧ b.capacity_bytes ≤ a.capacity_bytes)

instance : DecidableRel balRank := fun a b =>
  inferInstanceAs (Decidable (b.free_bytes < a.free_bytes ∨
    (a.free_bytes = b.free_bytes ∧ b.capacity_bytes ≤ a.capacity_bytes)))

instance : IsTotal NodeState balRank := by
  constructor; intro a b; unfold balRank; omega

instance : IsTrans NodeState balRank := by
  constructor; intro a b c hab hbc; unfold balRank at *; omega

/-- The per-placement body of the loop in `MasterService.plan_rebalances`:
skip when there is no deficit, otherwise emit up to `deficit` instructions
`(chunk_id, source, target)` toward the best-ranked candidate targets. -/
def instrsForPlacement (s : Settings) (healthy : List NodeState) (cb : Int)
    (p : ChunkPlacement) : List (String × String × String) :=
  let deficit := chunkDeficit s healthy p
  if deficit ≤ 0 then []
  else
    let cands := List.insertionSort balRank
      (healthy.filter (fun n => !(p.replicas.contains n.node_id) && decide (cb ≤ n.free_bytes)))
    let srcs := List.insertionSort balRank
      ((healthyReplicas healthy p).filterMap (fun rid => healthy.find? (fun n => n.node_id == rid)))
    let src := match srcs with
      | n :: _ => n.node_id
      | [] => p.replicas.headD ""
    (pyTake deficit cands).map (fun t => (p.chunk_id, src, t.node_id))

/-- The per-file body of `MasterService.plan_rebalances` (one `chunk_bytes`
for all placements of the file). -/
def planForFile (s : Settings) (healthy : List NodeState) (f : FileRecord) :
    List (String × String × String) :=
  f.placements.flatMap (fun p => instrsForPlacement s healthy (effChunkSize s f) p)

/-- `MasterService.plan_rebalances`, as a function of the file list and the
healthy-node snapshot it reads. -/
def planRebalances (s : Settings) (files : List FileRecord) (healthyIn : List NodeState) :
    List (String × String × String) :=
  files.flatMap (planForFile s (nodesDict healthyIn))

/-- `MasterService.refresh_rebalances` (the metrics increment is
observability-only). -/
def refreshRebalances (svc : ServiceState) (now : Int) : ServiceState :=
  { svc with pending :=
      planRebalances svc.settings svc.store.files (listHealthyNodes svc.store svc.settings now) }

/-- The `Heartbeat` RPC handler of master_server.py: refresh the pending queue
when it is empty, record the heartbeat, then drain and return the
instructions targeted at the caller. -/
def heartbeatRPC (svc : ServiceState) (nid : String) (free load now : Int) :
    (Bool × List (String × String × String)) × ServiceState :=
  let svc1 := if svc.pending.isEmpty then refreshRebalances svc now else svc
  let hb := updateHeartbeat svc1.store nid free load now
  let tk := takeRebalancesFor svc1.pending nid
  ((hb.1, tk.1), { svc1 with store := hb.2, pending := tk.2 })

/-- `MasterService.get_upload_plan`.  A positive caller override is first
written into the shared `self.settings.chunk_size` (service.py line 88) and a
healthy-node snapshot is read (line 89, a pure read).  Line 90 then calls
`placement.plan_upload(file_id, file_name, file_size, self.settings, healthy)`
— five positional arguments to a function declared with four parameters
(placement.py line 14) — which raises `TypeError` on every call: the planner
body never runs, no plan is returned and no record is persisted (`none`
models the raised exception), while the settings mutation has already
happened and survives. -/
def getUploadPlan (svc : ServiceState) (_fid _fname : String) (_fsize : Int)
    (req : Option Int) : Option (Int × List ChunkPlacement) × ServiceState :=
  let settings1 := match req with
    | some r => if 0 < r then { svc.settings with chunk_size := r } else svc.settings
    | none => svc.settings
  (none, { svc with settings := settings1 })

/-! Helper lemmas. -/

lemma takeRebalancesFor_fst (pending : List (String × String × String)) (nid : String) :
    (takeRebalancesFor pending nid).1 = pending.filter (fun i => i.2.2 == nid) := by
  induction pending with
  | nil => rfl
  | cons i rest ih =>
    simp only [takeRebalancesFor, List.filter_cons]
    by_cases h : i.2.2 = nid
    · simp [h, ih]
    · simp [h, ih]

lemma takeRebalancesFor_snd (pending : List (String × String × String)) (nid : String) :
    (takeRebalancesFor pending nid).2 = pending.filter (fun i => !(i.2.2 == nid)) := by
  induction pending with
  | nil => rfl
  | cons i rest ih =>
    simp only [takeRebalancesFor, List.filter_cons]
    by_cases h : i.2.2 = nid
    · simp [h, ih]
    · simp [h, ih]

lemma ucrFiles_no_match (fid cid : String) (idx : Int) (nid : String)
    (l : List FileRecord) (h : ∀ r ∈ l, r.file_id ≠ fid) :
    ucrFiles fid cid idx nid l = l := by
  induction l with
  | nil => rfl
  | cons r rs ih =>
    have hr : r.file_id ≠ fid := h r (List.mem_cons_self r rs)
    simp only [ucrFiles, if_neg hr]
    rw [ih (fun x hx => h x (List.mem_cons_of_mem r hx))]

lemma hbNodes_append (nid : String) (f ld t : Int) (pre post : List NodeState) (m : NodeState)
    (hpre : ∀ x ∈ pre, x.node_id ≠ nid) (hm : m.node_id = nid) :
    hbNodes nid f ld t (pre ++ m :: post) =
      pre ++ { m with free_bytes := f, last_seen := t, healthy := true, load_factor := ld } :: post := by
  induction pre with
  | nil => simp [hbNodes, hm]
  | cons x xs ih =>
    have hx : x.node_id ≠ nid := hpre x (List.mem_cons_self x xs)
    simp only [List.cons_append, hbNodes, if_neg hx, List.append_eq]
    rw [ih (fun y hy => hpre y (List.mem_cons_of_mem x hy))]

lemma muNodes_no_match (nid : String) (l : List NodeState)
    (h : (l.any fun m => m.node_id == nid) = false) : muNodes nid l = l := by
  induction l with
  | nil => rfl
  | cons m ms ih =>
    simp only [List.any_cons, Bool.or_eq_false_iff, beq_eq_false_iff_ne] at h
    simp [muNodes, h.1, ih h.2]

lemma muNodes_any (nid : String) (l : List NodeState) :
    (muNodes nid l).any (fun m => m.node_id == nid) = l.any (fun m => m.node_id == nid) := by
  induction l with
  | nil => rfl
  | cons m ms ih =>
    by_cases h : m.node_id = nid
    · simp [muNodes, h]
    · simp [muNodes, h, ih]

lemma hbNodes_muNodes (nid : String) (f ld t : Int) (l : List NodeState) :
    hbNodes nid f ld t (muNodes nid l) = hbNodes nid f ld t l := by
  induction l with
  | nil => rfl
  | cons m ms ih =>
    by_cases h : m.node_id = nid
    · simp [muNodes, hbNodes, h]
    · simp [muNodes, hbNodes, h, ih]

/-! Theorems about the claims. -/

/-- Claim C3: `take_rebalances_for(node_id)` returns exactly the queued
instructions whose target equals `node_id`, in queue order, leaves exactly the
other instructions in their original order, and drops or duplicates
nothing. -/
theorem take_rebalances_partition (pending : List (String × String × String)) (nid : String) :
    (takeRebalancesFor pending nid).1 = pending.filter (fun i => i.2.2 == nid)
    ∧ (takeRebalancesFor pending nid).2 = pending.filter (fun i => !(i.2.2 == nid))
    ∧ pending.Perm ((takeRebalancesFor pending nid).1 ++ (takeRebalancesFor pending nid).2) := by
  refine ⟨takeRebalancesFor_fst pending nid, takeRebalancesFor_snd pending nid, ?_⟩
  rw [takeRebalancesFor_fst, takeRebalancesFor_snd]
  exact (List.filter_append_perm _ pending).symm

/-- Claim C7: `update_heartbeat` on an unknown node fails and leaves the store
unchanged; on a known node it succeeds and updates exactly `free_bytes`,
`load_factor`, `last_seen := now` and `healthy := true` of that node; and a
heartbeat arriving after `mark_unhealthy` behaves exactly as if the node had
never been marked, so it restores `healthy = true`. -/
theorem update_heartbeat_contract (store : MetadataStore) (nid : String) (free load now : Int) :
    ((∀ m ∈ store.nodes, m.node_id ≠ nid) →
      updateHeartbeat store nid free load now = (false, store))
    ∧ (∀ pre post m, store.nodes = pre ++ m :: post → (∀ x ∈ pre, x.node_id ≠ nid) →
        m.node_id = nid →
        updateHeartbeat store nid free load now =
          (true, { store with nodes :=
            pre ++ { m with free_bytes := free, last_seen := now,
                            healthy := true, load_factor := load } :: post }))
    ∧ updateHeartbeat (markUnhealthy store nid) nid free load now =
        updateHeartbeat store nid free load now := by
  refine ⟨?_, ?_, ?_⟩
  · intro h
    have hany : store.nodes.any (fun m => m.node_id == nid) = false := by
      simp only [List.any_eq_false]
      intro m hm
      simp [h m hm]
    simp [updateHeartbeat, hany]
  · intro pre post m hsplit hpre hm
    have hcond : ((pre ++ m :: post).any fun x => x.node_id == nid) = true := by simp [hm]
    simp only [updateHeartbeat, hsplit]
    rw [if_pos hcond, hbNodes_append nid free load now pre post m hpre hm]
  · by_cases hc : store.nodes.any (fun m => m.node_id == nid) = true
    · simp only [updateHeartbeat, markUnhealthy, muNodes_any, hbNodes_muNodes, hc, if_true]
    · have hc' : (store.nodes.any fun m => m.node_id == nid) = false :=
        Bool.eq_false_iff.mpr hc
      simp only [updateHeartbeat, markUnhealthy, muNodes_any, hc', Bool.false_eq_true,
        if_false, muNodes_no_match nid store.nodes hc']

/-- Claim C7 witness: the contract evaluated on a concrete one-node store that
was first marked unhealthy. -/
theorem update_heartbeat_contract_witness :
    updateHeartbeat (⟨[⟨"n1", "h", 1, 100, 80, "", 0, true, 0⟩], []⟩ : MetadataStore)
        "n1" 50 2 7 =
      (true, ⟨[⟨"n1", "h", 1, 100, 50, "", 7, true, 2⟩], []⟩) :=
  (update_heartbeat_contract ⟨[⟨"n1", "h", 1, 100, 80, "", 0, true, 0⟩], []⟩ "n1" 50 2 7).2.1
    [] [] ⟨"n1", "h", 1, 100, 80, "", 0, true, 0⟩ rfl (by simp) (by decide)

/-- Claim C9: deleting a registered node removes it from the registry and
leaves every file record (hence every placement and replica list) unchanged.
The `delete_node` service method is absent from src, so `deleteNode` is
modelled from the spec. -/
theorem delete_node_contract (store : MetadataStore) (nid : String)
    (h : store.nodes.any (fun n => n.node_id == nid) = true) :
    (deleteNode store nid).1 = true
    ∧ (∀ n ∈ (deleteNode store nid).2.nodes, n.node_id ≠ nid)
    ∧ (deleteNode store nid).2.files = store.files := by
  refine ⟨h, ?_, rfl⟩
  intro n hn
  have := (List.mem_filter.mp hn).2
  simpa using this

/-- Claim C9 witness: deleting node n1 from a concrete store that also records
a file whose placement references n1. -/
theorem delete_node_contract_witness :
    (deleteNode (⟨[⟨"n1", "h", 1, 100, 80, "", 0, true, 0⟩],
        [⟨"f", "t", 4, 4, [⟨"c", 0, ["n1"]⟩]⟩]⟩ : MetadataStore) "n1").1 = true
    ∧ (deleteNode (⟨[⟨"n1", "h", 1, 100, 80, "", 0, true, 0⟩],
        [⟨"f", "t", 4, 4, [⟨"c", 0, ["n1"]⟩]⟩]⟩ : MetadataStore) "n1").2.files =
      [⟨"f", "t", 4, 4, [⟨"c", 0, ["n1"]⟩]⟩] :=
  ⟨(delete_node_contract ⟨[⟨"n1", "h", 1, 100, 80, "", 0, true, 0⟩],
      [⟨"f", "t", 4, 4, [⟨"c", 0, ["n1"]⟩]⟩]⟩ "n1" (by decide)).1,
   (delete_node_contract ⟨[⟨"n1", "h", 1, 100, 80, "", 0, true, 0⟩],
      [⟨"f", "t", 4, 4, [⟨"c", 0, ["n1"]⟩]⟩]⟩ "n1" (by decide)).2.2⟩

/-- Claim C10: `update_chunk_replica` with a file id that is not in the store
leaves the store completely unchanged (the commit is silently dropped, no
error is raised). -/
theorem update_chunk_replica_unknown_file_noop (store : MetadataStore) (fid cid : String)
    (idx : Int) (nid : String) (h : ∀ r ∈ store.files, r.file_id ≠ fid) :
    updateChunkReplica store fid cid idx nid = store := by
  unfold updateChunkReplica
  rw [ucrFiles_no_match fid cid idx nid store.files h]

/-- Claim C10 witness: dropping a commit against a store that holds only an
unrelated file. -/
theorem update_chunk_replica_unknown_file_noop_witness :
    updateChunkReplica (⟨[], [⟨"g", "t", 4, 4, []⟩]⟩ : MetadataStore) "f" "c" 0 "n1" =
      ⟨[], [⟨"g", "t", 4, 4, []⟩]⟩ :=
  update_chunk_replica_unknown_file_noop ⟨[], [⟨"g", "t", 4, 4, []⟩]⟩ "f" "c" 0 "n1" (by decide)

/-- Claim C8 (amended): a positive caller-supplied chunk-size override is
written into the shared settings before the planner is invoked; the call then
fails unconditionally — `plan_upload` receives five positional arguments but
declares four — so it yields no plan and persists nothing (store and pending
queue unchanged), and the overridden chunk size remains in the settings after
the failed call: it is never restored, and a second override-free call still
finds (and keeps) the overridden value and fails the same way. -/
theorem upload_plan_override_persists (svc : ServiceState) (fid fname : String)
    (fsize r : Int) (hr : 0 < r) :
    ((getUploadPlan svc fid fname fsize (some r)).1 = none)
    ∧ (((getUploadPlan svc fid fname fsize (some r)).2).settings.chunk_size = r)
    ∧ (((getUploadPlan svc fid fname fsize (some r)).2).store = svc.store)
    ∧ (((getUploadPlan svc fid fname fsize (some r)).2).pending = svc.pending)
    ∧ ∀ fid2 fname2 fsize2,
        ((getUploadPlan ((getUploadPlan svc fid fname fsize (some r)).2)
            fid2 fname2 fsize2 none).1 = none)
        ∧ (((getUploadPlan ((getUploadPlan svc fid fname fsize (some r)).2)
            fid2 fname2 fsize2 none).2).settings.chunk_size = r) := by
  refine ⟨rfl, ?_, rfl, rfl, fun fid2 fname2 fsize2 => ⟨rfl, ?_⟩⟩
  · simp [getUploadPlan, hr]
  · simp [getUploadPlan, hr]

/-- Claim C8 witness: override 8 over a configured chunk size of 4 — the
override sticks in the settings although the call itself fails. -/
theorem upload_plan_override_persists_witness :
    (((getUploadPlan ⟨⟨4, 1, 5, 15⟩, ⟨[], []⟩, []⟩ "f" "" 8 (some 8)).2).settings.chunk_size
      = 8) :=
  (upload_plan_override_persists ⟨⟨4, 1, 5, 15⟩, ⟨[], []⟩, []⟩ "f" "" 8 8 (by decide)).2.1

/-- Claim C8 counterexample: with configured chunk size 4, a call with
override 8 raises (no plan is produced) and leaves the settings at 8
afterwards — the configured chunk_size is NOT unchanged after the call, and
no plan at all uses the original 4, refuting "only for that one plan". -/
theorem upload_plan_override_not_restored :
    ((⟨⟨4, 1, 5, 15⟩, ⟨[], []⟩, []⟩ : ServiceState).settings.chunk_size = 4)
    ∧ ((getUploadPlan ⟨⟨4, 1, 5, 15⟩, ⟨[], []⟩, []⟩ "f" "" 8 (some 8)).1 = none)
    ∧ (((getUploadPlan ⟨⟨4, 1, 5, 15⟩, ⟨[], []⟩, []⟩ "f" "" 8
        (some 8)).2).settings.chunk_size = 8) := by
  refine ⟨rfl, rfl, ?_⟩
  decide

lemma heartbeatRPC_pending (svc : ServiceState) (nid : String) (free load now : Int) :
    ((heartbeatRPC svc nid free load now).2).pending =
      ((if svc.pending.isEmpty then refreshRebalances svc now else svc).pending.filter
        (fun i => !(i.2.2 == nid))) := by
  simp only [heartbeatRPC, takeRebalancesFor_snd]

lemma heartbeatRPC_reply (svc : ServiceState) (nid : String) (free load now : Int) :
    ((heartbeatRPC svc nid free load now).1).2 =
      ((if svc.pending.isEmpty then refreshRebalances svc now else svc).pending.filter
        (fun i => i.2.2 == nid)) := by
  simp only [heartbeatRPC, takeRebalancesFor_fst]

/-- Claim C4 (amended): after a Heartbeat RPC from `nid` drains the
instructions targeted at it, a second immediate Heartbeat from `nid` returns
an empty rebalance list PROVIDED the pending queue is non-empty when the
second call arrives; when the drain leaves the queue empty, the handler
itself re-runs the scheduler and can redeliver the drained instruction. -/
theorem heartbeat_no_redelivery_of_drained (svc : ServiceState) (nid : String)
    (f1 l1 t1 f2 l2 t2 : Int)
    (h : ((heartbeatRPC svc nid f1 l1 t1).2).pending ≠ []) :
    ((heartbeatRPC ((heartbeatRPC svc nid f1 l1 t1).2) nid f2 l2 t2).1).2 = [] := by
  rw [heartbeatRPC_reply]
  have hne : ((heartbeatRPC svc nid f1 l1 t1).2).pending.isEmpty = false := by
    rw [List.isEmpty_eq_false_iff_exists_mem]
    cases hp : ((heartbeatRPC svc nid f1 l1 t1).2).pending with
    | nil => exact absurd hp h
    | cons a l => exact ⟨a, by simp⟩
  rw [if_neg (by simp [hne])]
  rw [heartbeatRPC_pending]
  rw [List.filter_filter]
  apply List.filter_eq_nil_iff.mpr
  intro a _
  simp

/-- Claim C4 witness: a two-node, two-file store where the first heartbeat of
n1 drains its instruction but leaves n2's queued, so the immediate second
heartbeat of n1 returns nothing. -/
theorem heartbeat_no_redelivery_of_drained_witness :
    ((heartbeatRPC ((heartbeatRPC ⟨⟨4, 2, 5, 15⟩,
        ⟨[⟨"n1", "h", 1, 100, 100, "", 0, true, 0⟩, ⟨"n2", "h", 2, 200, 200, "", 0, true, 0⟩],
         [⟨"f1", "", 4, 4, [⟨"c1", 0, ["n2"]⟩]⟩, ⟨"f2", "", 4, 4, [⟨"c2", 0, ["n1"]⟩]⟩]⟩,
        []⟩ "n1" 100 0 0).2) "n1" 100 0 1).1).2 = [] :=
  heartbeat_no_redelivery_of_drained ⟨⟨4, 2, 5, 15⟩,
    ⟨[⟨"n1", "h", 1, 100, 100, "", 0, true, 0⟩, ⟨"n2", "h", 2, 200, 200, "", 0, true, 0⟩],
     [⟨"f1", "", 4, 4, [⟨"c1", 0, ["n2"]⟩]⟩, ⟨"f2", "", 4, 4, [⟨"c2", 0, ["n1"]⟩]⟩]⟩,
    []⟩ "n1" 100 0 0 100 0 1 (by decide)

/-- Claim C4 counterexample: one healthy node n1, one file whose only
placement has no replicas, replication factor 1.  The first heartbeat drains
`(c1, "", n1)` and empties the queue, so the immediate second heartbeat
re-runs the scheduler and returns the SAME instruction again — the drained
instruction IS redelivered on heartbeat N+1 although no scheduler tick ran in
between the two RPCs. -/
theorem heartbeat_redelivers_when_queue_empty :
    ((heartbeatRPC ⟨⟨4, 1, 5, 15⟩, ⟨[⟨"n1", "h", 1, 100, 100, "", 0, true, 0⟩],
        [⟨"f1", "t", 4, 4, [⟨"c1", 0, []⟩]⟩]⟩, []⟩ "n1" 100 0 0).1).2 = [("c1", "", "n1")]
    ∧ ((heartbeatRPC ((heartbeatRPC ⟨⟨4, 1, 5, 15⟩, ⟨[⟨"n1", "h", 1, 100, 100, "", 0, true, 0⟩],
        [⟨"f1", "t", 4, 4, [⟨"c1", 0, []⟩]⟩]⟩, []⟩ "n1" 100 0 0).2) "n1" 100 0 1).1).2 =
      [("c1", "", "n1")] := by
  constructor <;> decide

/-- Claim C2 (amended): `plan_upload` gives every chunk the node ids of the
first `min(replication_factor, |healthy_nodes|)` nodes of the healthy list
stably sorted by free bytes descending with ties broken by grpc port
ASCENDING (the code sorts on the key `(free_bytes, -grpc_port)` with
`reverse=True`). -/
theorem plan_upload_replica_selection (fsize : Int) (s : Settings) (healthy : List NodeState)
    (gen : Nat → String) (hr : 0 ≤ s.replication_factor) :
    (List.insertionSort pickRank healthy).Perm healthy
    ∧ List.Sorted pickRank (List.insertionSort pickRank healthy)
    ∧ ∀ p ∈ (planUpload fsize s healthy gen).2,
        p.replicas =
          ((List.insertionSort pickRank healthy).take s.replication_factor.toNat).map
            (fun n => n.node_id)
        ∧ p.replicas.length = min s.replication_factor.toNat healthy.length := by
  refine ⟨List.perm_insertionSort pickRank healthy,
    List.sorted_insertionSort pickRank healthy, ?_⟩
  intro p hp
  simp only [planUpload, List.mem_map, List.mem_range] at hp
  obtain ⟨idx, -, rfl⟩ := hp
  have hpick : pickNodes healthy s.replication_factor =
      (List.insertionSort pickRank healthy).take s.replication_factor.toNat := by
    rw [pickNodes, pyTake, if_pos hr]
  refine ⟨by simp [hpick], ?_⟩
  simp only [hpick, List.length_map, List.length_take,
    (List.perm_insertionSort pickRank healthy).length_eq]

/-- Claim C2 witness: two healthy nodes with free bytes 50 and 80 and
replication 1; the planner picks the single top node "b". -/
theorem plan_upload_replica_selection_witness :
    ((⟨"c", 0, ["b"]⟩ : ChunkPlacement).replicas =
      ((List.insertionSort pickRank [⟨"a", "h", 1, 100, 50, "", 0, true, 0⟩,
        ⟨"b", "h", 2, 100, 80, "", 0, true, 0⟩]).take 1).map (fun n => n.node_id)) :=
  ((plan_upload_replica_selection 4 ⟨4, 1, 5, 15⟩
    [⟨"a", "h", 1, 100, 50, "", 0, true, 0⟩, ⟨"b", "h", 2, 100, 80, "", 0, true, 0⟩]
    (fun _ => "c") (by decide)).2.2 ⟨"c", 0, ["b"]⟩ (by decide)).1

/-- Claim C2 counterexample: two healthy nodes with EQUAL free bytes and grpc
ports 1 and 2, replication 1.  The code selects node "a" (the LOWER port),
while the ranking the claim states — ties broken by transport port
descending — would select node "b", so the claim as stated is false. -/
theorem plan_upload_port_tiebreak_ascending :
    ((planUpload 4 ⟨4, 1, 5, 15⟩ [⟨"a", "h", 1, 100, 50, "", 0, true, 0⟩,
        ⟨"b", "h", 2, 100, 50, "", 0, true, 0⟩] (fun _ => "c")).2.map (fun p => p.replicas))
      = [["a"]]
    ∧ ((List.insertionSort pickRankSpecPortDesc [⟨"a", "h", 1, 100, 50, "", 0, true, 0⟩,
        ⟨"b", "h", 2, 100, 50, "", 0, true, 0⟩]).take 1).map (fun n => n.node_id) = ["b"] := by
  constructor <;> decide

lemma planUpload_indices (fsize : Int) (s : Settings) (healthy : List NodeState)
    (gen : Nat → String) :
    (planUpload fsize s healthy gen).2.map (fun p => p.chunk_index) =
      (List.range (if fsize = 0 then (1 : Int) else ceilDivInt fsize s.chunk_size).toNat).map
        (fun i : Nat => (i : Int)) := by
  simp only [planUpload, List.map_map]
  rfl

/-- Claim C5 (amended): the records written by the placement planner do
satisfy the contiguity invariant — `plan_upload` produces placements whose
chunk indices are exactly `0, 1, ..., total_chunks - 1` where `total_chunks`
is the ceiling of `file_size / chunk_size` (and a single index-0 placement
for an empty file); the invariant does not survive arbitrary
`record_chunk_stored` calls, which accept any caller-supplied index. -/
theorem plan_upload_contiguous_indices (fsize : Int) (s : Settings) (healthy : List NodeState)
    (gen : Nat → String) (hcs : 0 < s.chunk_size) :
    (fsize = 0 → (planUpload fsize s healthy gen).2.map (fun p => p.chunk_index) = [0])
    ∧ (0 < fsize →
        (planUpload fsize s healthy gen).2.map (fun p => p.chunk_index) =
          (List.range (ceilDivInt fsize s.chunk_size).toNat).map (fun i : Nat => (i : Int))
        ∧ s.chunk_size * (ceilDivInt fsize s.chunk_size - 1) < fsize
        ∧ fsize ≤ s.chunk_size * ceilDivInt fsize s.chunk_size) := by
  constructor
  · intro h0
    subst h0
    rw [planUpload_indices, if_pos rfl]
    rfl
  · intro hpos
    have hne : fsize ≠ 0 := by omega
    have hb : s.chunk_size ≠ 0 := by omega
    have h1 := Int.ediv_add_emod (-fsize) s.chunk_size
    have h2 := Int.emod_nonneg (-fsize) hb
    have h3 := Int.emod_lt_of_pos (-fsize) hcs
    have hc : ceilDivInt fsize s.chunk_size = -((-fsize) / s.chunk_size) := rfl
    refine ⟨?_, ?_, ?_⟩
    · rw [planUpload_indices, if_neg hne]
    · rw [hc]; nlinarith [h1, h2, h3]
    · rw [hc]; nlinarith [h1, h2, h3]

/-- Claim C5 witness: a 10-byte file with 4-byte chunks plans indices
`[0, 1, 2]`. -/
theorem plan_upload_contiguous_indices_witness :
    (planUpload 10 ⟨4, 2, 5, 15⟩ [] (fun _ => "c")).2.map (fun p => p.chunk_index) =
      (List.range (ceilDivInt 10 4).toNat).map (fun i : Nat => (i : Int)) :=
  ((plan_upload_contiguous_indices 10 ⟨4, 2, 5, 15⟩ [] (fun _ => "c")
    (by decide)).2 (by decide)).1

/-- Claim C5 counterexample: a single public operation,
`record_chunk_stored("f", "", 0, 4, "c", 3, "n1")` on an empty store, leaves
a file with `file_size = 0` whose only placement sits at chunk index 3 — not
the contiguous range `[0, 1)` the claim requires for every reachable
store. -/
theorem record_chunk_stored_gap :
    (recordChunkStored ⟨[], []⟩ "f" "" 0 4 "c" 3 "n1").files =
      [⟨"f", "", 0, 4, [⟨"c", 3, ["n1"]⟩]⟩] := by decide

lemma addReplica_chunk_id (p : ChunkPlacement) (nid : String) :
    (addReplica p nid).chunk_id = p.chunk_id := by
  unfold addReplica
  split <;> rfl

lemma addReplica_idem (p : ChunkPlacement) (nid : String) :
    addReplica (addReplica p nid) nid = addReplica p nid := by
  by_cases h : nid ∈ p.replicas
  · simp [addReplica, h]
  · simp [addReplica, h]

lemma ucrPlacements_idem (cid : String) (idx : Int) (nid : String) (ps : List ChunkPlacement) :
    ucrPlacements cid idx nid (ucrPlacements cid idx nid ps) = ucrPlacements cid idx nid ps := by
  induction ps with
  | nil => simp [ucrPlacements, addReplica]
  | cons p ps ih =>
    by_cases hp : p.chunk_id = cid
    · subst hp
      simp [ucrPlacements, addReplica_chunk_id, addReplica_idem]
    · simp [ucrPlacements, hp, ih]

lemma ucrFiles_idem (fid cid : String) (idx : Int) (nid : String) (l : List FileRecord) :
    ucrFiles fid cid idx nid (ucrFiles fid cid idx nid l) = ucrFiles fid cid idx nid l := by
  induction l with
  | nil => rfl
  | cons r rs ih =>
    by_cases hr : r.file_id = fid
    · subst hr
      simp [ucrFiles, ucrPlacements_idem]
    · simp [ucrFiles, hr, ih]

lemma ucrPlacements_monotone (cid : String) (idx : Int) (nid : String)
    (ps : List ChunkPlacement) (c : String) :
    repPl (ucrPlacements cid idx nid ps) c = repPl ps c
    ∨ (repPl (ucrPlacements cid idx nid ps) c = repPl ps c ++ [nid]
        ∧ nid ∉ repPl ps c) := by
  induction ps with
  | nil =>
    by_cases hc : cid = c
    · subst hc
      right
      refine ⟨by simp [ucrPlacements, repPl], by simp [repPl]⟩
    · left
      simp [ucrPlacements, repPl, hc]
  | cons p ps ih =>
    by_cases hp : p.chunk_id = cid
    · subst hp
      by_cases hc : p.chunk_id = c
      · subst hc
        by_cases hn : nid ∈ p.replicas
        · left
          simp [ucrPlacements, repPl, addReplica, hn, addReplica_chunk_id]
        · right
          refine ⟨?_, by simp [repPl, hn]⟩
          simp [ucrPlacements, repPl, addReplica, hn, addReplica_chunk_id]
      · left
        have hc' : (addReplica p nid).chunk_id ≠ c := by rw [addReplica_chunk_id]; exact hc
        simp [ucrPlacements, repPl, hc, hc']
    · by_cases hc : p.chunk_id = c
      · subst hc
        left
        simp [ucrPlacements, repPl, hp]
      · rcases ih with h | ⟨h1, h2⟩
        · left
          simp [ucrPlacements, repPl, hp, hc, h]
        · right
          refine ⟨?_, by simp [repPl, hc, h2]⟩
          simp [ucrPlacements, repPl, hp, hc, h1]

lemma ucrFiles_monotone (fid cid : String) (idx : Int) (nid : String)
    (l : List FileRecord) (f c : String) :
    repFiles (ucrFiles fid cid idx nid l) f c = repFiles l f c
    ∨ (repFiles (ucrFiles fid cid idx nid l) f c = repFiles l f c ++ [nid]
        ∧ nid ∉ repFiles l f c) := by
  induction l with
  | nil => left; rfl
  | cons r rs ih =>
    by_cases hr : r.file_id = fid
    · subst hr
      by_cases hf : r.file_id = f
      · subst hf
        rcases ucrPlacements_monotone cid idx nid r.placements c with h | ⟨h1, h2⟩
        · left
          simp [ucrFiles, repFiles, h]
        · right
          refine ⟨?_, by simp [repFiles, h2]⟩
          simp [ucrFiles, repFiles, h1]
      · left
        simp [ucrFiles, repFiles, hf]
    · by_cases hf : r.file_id = f
      · subst hf
        left
        simp [ucrFiles, repFiles, hr]
      · rcases ih with h | ⟨h1, h2⟩
        · left
          simp [ucrFiles, repFiles, hr, hf, h]
        · right
          refine ⟨?_, by simp [repFiles, hf, h2]⟩
          simp [ucrFiles, repFiles, hr, hf, h1]

/-- Claim C6 (amended): `update_chunk_replica` locates the placement by chunk
id, creates it at `chunk_index` when absent, and appends the node id only when
absent, so it is idempotent, it never removes a replica, and it preserves
duplicate-freeness of every replica list; the node operations
(`update_heartbeat`, `mark_unhealthy`, `register_node`, `delete_node`) leave
files untouched.  `put_file`, however, replaces a record wholesale and CAN
shrink a replica list, so the monotonicity does not extend to it. -/
theorem update_chunk_replica_laws (store : MetadataStore) (fid cid : String)
    (idx : Int) (nid : String) :
    updateChunkReplica (updateChunkReplica store fid cid idx nid) fid cid idx nid
        = updateChunkReplica store fid cid idx nid
    ∧ (∀ f c, ∃ t, replicasOf (updateChunkReplica store fid cid idx nid) f c
        = replicasOf store f c ++ t)
    ∧ (∀ f c, (replicasOf store f c).Nodup →
        (replicasOf (updateChunkReplica store fid cid idx nid) f c).Nodup)
    ∧ (∀ n free load now, ((updateHeartbeat store n free load now).2).files = store.files)
    ∧ (∀ n, (markUnhealthy store n).files = store.files)
    ∧ (∀ n host port cap free mac now,
        (registerNode store n host port cap free mac now).files = store.files)
    ∧ (∀ n, ((deleteNode store n).2).files = store.files) := by
  refine ⟨?_, ?_, ?_, ?_, fun n => rfl, fun n host port cap free mac now => rfl, fun n => rfl⟩
  · simp only [updateChunkReplica]
    rw [ucrFiles_idem]
  · intro f c
    rcases ucrFiles_monotone fid cid idx nid store.files f c with h | ⟨h1, -⟩
    · exact ⟨[], by simp [replicasOf, updateChunkReplica, h]⟩
    · exact ⟨[nid], by simp [replicasOf, updateChunkReplica, h1]⟩
  · intro f c hnd
    rcases ucrFiles_monotone fid cid idx nid store.files f c with h | ⟨h1, h2⟩
    · simpa [replicasOf, updateChunkReplica, h] using hnd
    · simp only [replicasOf, updateChunkReplica] at *
      rw [h1]
      exact List.Nodup.append hnd (List.nodup_singleton nid)
        (List.disjoint_singleton.mpr h2)
  · intro n free load now
    unfold updateHeartbeat
    split <;> rfl

/-- Claim C6 witness: committing replica n2 onto a concrete store that already
holds replica n1 for the same chunk — the replica list stays duplicate-free. -/
theorem update_chunk_replica_laws_witness :
    (replicasOf (updateChunkReplica ⟨[], [⟨"f", "", 4, 4, [⟨"c", 0, ["n1"]⟩]⟩]⟩
      "f" "c" 0 "n2") "f" "c").Nodup :=
  (update_chunk_replica_laws ⟨[], [⟨"f", "", 4, 4, [⟨"c", 0, ["n1"]⟩]⟩]⟩
    "f" "c" 0 "n2").2.2.1 "f" "c" (by decide)

/-- Claim C6 counterexample: `put_file` — one of the public store operations —
replaces the record of file f with one whose placement for chunk c has no
replicas, shrinking `|replicas|` from 1 to 0 and refuting "no operation
removes a replica". -/
theorem put_file_removes_replica :
    replicasOf (⟨[], [⟨"f", "", 4, 4, [⟨"c", 0, ["n1"]⟩]⟩]⟩ : MetadataStore) "f" "c" = ["n1"]
    ∧ replicasOf (putFile ⟨[], [⟨"f", "", 4, 4, [⟨"c", 0, ["n1"]⟩]⟩]⟩
        ⟨"f", "", 4, 4, [⟨"c", 0, []⟩]⟩) "f" "c" = [] := by
  constructor <;> decide

lemma mem_dictInsertNode {x n : NodeState} {l : List NodeState}
    (h : x ∈ dictInsertNode n l) : x = n ∨ x ∈ l := by
  induction l with
  | nil => simpa [dictInsertNode] using h
  | cons m ms ih =>
    simp only [dictInsertNode] at h
    by_cases hm : m.node_id = n.node_id
    · rw [if_pos hm] at h
      rcases List.mem_cons.mp h with h1 | h2
      · exact Or.inl h1
      · exact Or.inr (List.mem_cons_of_mem m h2)
    · rw [if_neg hm] at h
      rcases List.mem_cons.mp h with h1 | h2
      · exact Or.inr (h1 ▸ List.mem_cons_self m ms)
      · rcases ih h2 with h3 | h4
        · exact Or.inl h3
        · exact Or.inr (List.mem_cons_of_mem m h4)

lemma foldl_dictInsert_sub {x : NodeState} :
    ∀ (l acc : List NodeState), x ∈ l.foldl (fun a n => dictInsertNode n a) acc →
      x ∈ acc ∨ x ∈ l := by
  intro l
  induction l with
  | nil => intro acc h; exact Or.inl h
  | cons n ns ih =>
    intro acc h
    simp only [List.foldl_cons] at h
    rcases ih (dictInsertNode n acc) h with h1 | h2
    · rcases mem_dictInsertNode h1 with h3 | h4
      · exact Or.inr (h3 ▸ List.mem_cons_self n ns)
      · exact Or.inl h4
    · exact Or.inr (List.mem_cons_of_mem n h2)

lemma nodesDict_sub {x : NodeState} {l : List NodeState} (h : x ∈ nodesDict l) : x ∈ l := by
  rcases foldl_dictInsert_sub l [] h with h1 | h2
  · simp at h1
  · exact h2

lemma ids_dictInsertNode {y : String} {n : NodeState} {l : List NodeState}
    (h : y ∈ (dictInsertNode n l).map (fun m => m.node_id)) :
    y = n.node_id ∨ y ∈ l.map (fun m => m.node_id) := by
  rcases List.mem_map.mp h with ⟨x, hx, rfl⟩
  rcases mem_dictInsertNode hx with h1 | h2
  · exact Or.inl (by rw [h1])
  · exact Or.inr (List.mem_map_of_mem _ h2)

lemma nodup_ids_dictInsertNode {n : NodeState} {l : List NodeState}
    (h : (l.map (fun m => m.node_id)).Nodup) :
    ((dictInsertNode n l).map (fun m => m.node_id)).Nodup := by
  induction l with
  | nil => simp [dictInsertNode]
  | cons m ms ih =>
    simp only [List.map_cons, List.nodup_cons] at h
    by_cases hm : m.node_id = n.node_id
    · simp only [dictInsertNode, if_pos hm, List.map_cons, List.nodup_cons]
      exact ⟨by rw [← hm]; exact h.1, h.2⟩
    · simp only [dictInsertNode, if_neg hm, List.map_cons, List.nodup_cons]
      refine ⟨?_, ih h.2⟩
      intro hmem
      rcases ids_dictInsertNode hmem with h1 | h2
      · exact hm h1
      · exact h.1 h2

lemma nodesDict_ids_nodup (l : List NodeState) :
    ((nodesDict l).map (fun m => m.node_id)).Nodup := by
  suffices h : ∀ (acc : List NodeState), (acc.map (fun m => m.node_id)).Nodup →
      ((l.foldl (fun a n => dictInsertNode n a) acc).map (fun m => m.node_id)).Nodup by
    exact h [] (by simp)
  induction l with
  | nil => intro acc ha; simpa using ha
  | cons n ns ih =>
    intro acc ha
    simp only [List.foldl_cons]
    exact ih _ (nodup_ids_dictInsertNode ha)

lemma pyTake_sublist {α : Type} (i : Int) (l : List α) : (pyTake i l).Sublist l := by
  unfold pyTake
  split <;> exact List.take_sublist _ _

lemma pyTake_subset {α : Type} (i : Int) (l : List α) : ∀ x ∈ pyTake i l, x ∈ l :=
  fun _ hx => (pyTake_sublist i l).subset hx

lemma pyTake_length_le_toNat {α : Type} (i : Int) (l : List α) (hi : 0 ≤ i) :
    (pyTake i l).length ≤ i.toNat := by
  unfold pyTake
  rw [if_pos hi]
  simp [List.length_take]

lemma mem_instrsForPlacement {s : Settings} {healthy : List NodeState} {cb : Int}
    {p : ChunkPlacement} {i : String × String × String}
    (h : i ∈ instrsForPlacement s healthy cb p) :
    i.1 = p.chunk_id ∧ ∃ n ∈ healthy, i.2.2 = n.node_id
      ∧ p.replicas.contains n.node_id = false ∧ cb ≤ n.free_bytes := by
  simp only [instrsForPlacement] at h
  by_cases hd : chunkDeficit s healthy p ≤ 0
  · rw [if_pos hd] at h
    simp at h
  · rw [if_neg hd] at h
    rcases List.mem_map.mp h with ⟨t, ht, rfl⟩
    have ht1 := pyTake_subset _ _ t ht
    have ht2 := ((List.perm_insertionSort balRank _).mem_iff).mp ht1
    obtain ⟨hmem, hcond⟩ := List.mem_filter.mp ht2
    rw [Bool.and_eq_true] at hcond
    obtain ⟨hc1, hc2⟩ := hcond
    rw [Bool.not_eq_true'] at hc1
    exact ⟨rfl, t, hmem, rfl, hc1, of_decide_eq_true hc2⟩

lemma length_instrsForPlacement (s : Settings) (healthy : List NodeState) (cb : Int)
    (p : ChunkPlacement) :
    (instrsForPlacement s healthy cb p).length ≤ (chunkDeficit s healthy p).toNat := by
  simp only [instrsForPlacement]
  by_cases hd : chunkDeficit s healthy p ≤ 0
  · rw [if_pos hd]
    simp
  · rw [if_neg hd]
    rw [List.length_map]
    exact pyTake_length_le_toNat _ _ (by omega)

lemma map_pair_ids (cidv srcv : String) (l : List NodeState) :
    (l.map (fun t => (cidv, srcv, t.node_id))).map (fun i => (i.1, i.2.2)) =
      (l.map (fun t => t.node_id)).map (fun x => (cidv, x)) := by
  induction l with
  | nil => rfl
  | cons a l ih => simp [ih]

lemma nodup_ids_candidates (healthy : List NodeState) (q : NodeState → Bool) (i : Int)
    (hh : (healthy.map (fun m => m.node_id)).Nodup) :
    ((pyTake i (List.insertionSort balRank (healthy.filter q))).map
      (fun m => m.node_id)).Nodup := by
  have h1 : ((healthy.filter q).map (fun m => m.node_id)).Nodup :=
    List.Nodup.sublist (List.Sublist.map _ (List.filter_sublist _)) hh
  have h2 : ((List.insertionSort balRank (healthy.filter q)).map
      (fun m => m.node_id)).Nodup :=
    (List.Perm.nodup_iff (List.Perm.map _ (List.perm_insertionSort balRank _))).mpr h1
  exact List.Nodup.sublist (List.Sublist.map _ (pyTake_sublist _ _)) h2

lemma pairs_nodup_instrsForPlacement (s : Settings) (healthy : List NodeState) (cb : Int)
    (p : ChunkPlacement) (hh : (healthy.map (fun m => m.node_id)).Nodup) :
    ((instrsForPlacement s healthy cb p).map (fun i => (i.1, i.2.2))).Nodup := by
  simp only [instrsForPlacement]
  by_cases hd : chunkDeficit s healthy p ≤ 0
  · rw [if_pos hd]
    simp
  · rw [if_neg hd]
    rw [map_pair_ids]
    refine List.Nodup.map ?_ (nodup_ids_candidates healthy _ _ hh)
    intro a b hab
    simpa using hab

lemma pairs_nodup_flat (s : Settings) (healthy : List NodeState) (cb : Int)
    (ps : List ChunkPlacement)
    (hh : (healthy.map (fun m => m.node_id)).Nodup)
    (hc : (ps.map (fun p => p.chunk_id)).Nodup) :
    ((ps.flatMap (fun p => instrsForPlacement s healthy cb p)).map
      (fun i => (i.1, i.2.2))).Nodup := by
  induction ps with
  | nil => simp
  | cons p ps ih =>
    simp only [List.flatMap_cons, List.map_append]
    simp only [List.map_cons, List.nodup_cons] at hc
    rw [List.nodup_append]
    refine ⟨pairs_nodup_instrsForPlacement s healthy cb p hh, ih hc.2, ?_⟩
    intro a ha hb
    rcases List.mem_map.mp ha with ⟨i, hi, rfl⟩
    rcases List.mem_map.mp hb with ⟨j, hj, hij⟩
    rcases List.mem_flatMap.mp hj with ⟨p', hp', hjp⟩
    have h1 : i.1 = p.chunk_id := (mem_instrsForPlacement hi).1
    have h2 : j.1 = p'.chunk_id := (mem_instrsForPlacement hjp).1
    have hfst : j.1 = i.1 := (Prod.ext_iff.mp hij).1
    apply hc.1
    rw [← h1, ← hfst, h2]
    exact List.mem_map_of_mem _ hp'

lemma fst_mem_planForFile {s : Settings} {healthy : List NodeState} {f : FileRecord}
    {i : String × String × String} (h : i ∈ planForFile s healthy f) :
    i.1 ∈ f.placements.map (fun p => p.chunk_id) := by
  rcases List.mem_flatMap.mp h with ⟨p, hp, hip⟩
  rw [(mem_instrsForPlacement hip).1]
  exact List.mem_map_of_mem _ hp

lemma pairs_nodup_planRebalances (s : Settings) (files : List FileRecord)
    (hl : List NodeState)
    (hc : (files.flatMap (fun f => f.placements.map (fun p => p.chunk_id))).Nodup) :
    ((planRebalances s files hl).map (fun i => (i.1, i.2.2))).Nodup := by
  have hh := nodesDict_ids_nodup hl
  unfold planRebalances
  induction files with
  | nil => simp
  | cons f fs ih =>
    simp only [List.flatMap_cons] at hc
    rw [List.nodup_append] at hc
    simp only [List.flatMap_cons, List.map_append]
    rw [List.nodup_append]
    refine ⟨?_, ih hc.2.1, ?_⟩
    · simp only [planForFile]
      exact pairs_nodup_flat s (nodesDict hl) (effChunkSize s f) f.placements hh hc.1
    · intro a ha hb
      rcases List.mem_map.mp ha with ⟨i, hi, rfl⟩
      rcases List.mem_map.mp hb with ⟨j, hj, hij⟩
      rcases List.mem_flatMap.mp hj with ⟨f', hf', hjf⟩
      have h1 := fst_mem_planForFile hi
      have h2 := fst_mem_planForFile hjf
      have hfst : j.1 = i.1 := (Prod.ext_iff.mp hij).1
      refine hc.2.2 h1 ?_
      rw [← hfst] at h1 ⊢
      exact List.mem_flatMap.mpr ⟨f', hf', h2⟩

/-- Claim C1 (amended): every instruction emitted by `plan_rebalances` names a
target that is in the healthy-node snapshot, is not in the placement's
replicas at emission, and has free bytes at least the file's chunk size (the
configured default when the recorded chunk size is zero); each placement emits
at most `deficit` instructions; and — PROVIDED chunk ids are pairwise distinct
across all placements of all files — no two emitted instructions share the
same `(chunk_id, target)` pair.  Without that proviso two files recording the
same chunk id can emit a duplicate pair in one tick. -/
theorem plan_rebalances_targets_sound (s : Settings) (files : List FileRecord)
    (hl : List NodeState) :
    (∀ i ∈ planRebalances s files hl,
      ∃ f ∈ files, ∃ p ∈ f.placements,
        i.1 = p.chunk_id
        ∧ ∃ n ∈ hl, i.2.2 = n.node_id
            ∧ p.replicas.contains n.node_id = false
            ∧ effChunkSize s f ≤ n.free_bytes)
    ∧ (∀ (f : FileRecord) (p : ChunkPlacement),
        (instrsForPlacement s (nodesDict hl) (effChunkSize s f) p).length
          ≤ (chunkDeficit s (nodesDict hl) p).toNat)
    ∧ ((files.flatMap (fun f => f.placements.map (fun p => p.chunk_id))).Nodup →
        ((planRebalances s files hl).map (fun i => (i.1, i.2.2))).Nodup) := by
  refine ⟨?_, fun f p => length_instrsForPlacement _ _ _ _,
    pairs_nodup_planRebalances s files hl⟩
  intro i hi
  unfold planRebalances at hi
  rcases List.mem_flatMap.mp hi with ⟨f, hf, hif⟩
  simp only [planForFile] at hif
  rcases List.mem_flatMap.mp hif with ⟨p, hp, hip⟩
  obtain ⟨h1, n, hn, h2, h3, h4⟩ := mem_instrsForPlacement hip
  exact ⟨f, hf, p, hp, h1, n, nodesDict_sub hn, h2, h3, h4⟩

/-- Claim C1 witness: two files with distinct chunk ids, two healthy nodes —
the emitted `(chunk_id, target)` pairs are pairwise distinct. -/
theorem plan_rebalances_targets_sound_witness :
    ((planRebalances ⟨4, 2, 5, 15⟩
      [⟨"f1", "", 4, 4, [⟨"c1", 0, ["n2"]⟩]⟩, ⟨"f2", "", 4, 4, [⟨"c2", 0, ["n1"]⟩]⟩]
      [⟨"n1", "h", 1, 100, 100, "", 0, true, 0⟩, ⟨"n2", "h", 2, 200, 200, "", 0, true, 0⟩]).map
        (fun i => (i.1, i.2.2))).Nodup :=
  (plan_rebalances_targets_sound ⟨4, 2, 5, 15⟩
    [⟨"f1", "", 4, 4, [⟨"c1", 0, ["n2"]⟩]⟩, ⟨"f2", "", 4, 4, [⟨"c2", 0, ["n1"]⟩]⟩]
    [⟨"n1", "h", 1, 100, 100, "", 0, true, 0⟩,
     ⟨"n2", "h", 2, 200, 200, "", 0, true, 0⟩]).2.2 (by decide)

/-- Claim C1 counterexample: two files both recording chunk id c1 (reachable
through two ReportChunkStored calls), replication 2, and a roomy third node
nT: one scheduler pass emits `(c1, nA, nT)` and `(c1, nB, nT)` — two
instructions with the SAME `(chunk_id, target)` pair, refuting the claimed
pairwise distinctness. -/
theorem plan_rebalances_duplicate_pair :
    (planRebalances ⟨4, 2, 5, 15⟩
      [⟨"f1", "", 4, 4, [⟨"c1", 0, ["nA"]⟩]⟩, ⟨"f2", "", 4, 4, [⟨"c1", 0, ["nB"]⟩]⟩]
      [⟨"nA", "h", 1, 100, 100, "", 0, true, 0⟩, ⟨"nB", "h", 2, 100, 100, "", 0, true, 0⟩,
       ⟨"nT", "h", 3, 1000, 1000, "", 0, true, 0⟩]) =
      [("c1", "nA", "nT"), ("c1", "nB", "nT")]
    ∧ ¬ (((planRebalances ⟨4, 2, 5, 15⟩
      [⟨"f1", "", 4, 4, [⟨"c1", 0, ["nA"]⟩]⟩, ⟨"f2", "", 4, 4, [⟨"c1", 0, ["nB"]⟩]⟩]
      [⟨"nA", "h", 1, 100, 100, "", 0, true, 0⟩, ⟨"nB", "h", 2, 100, 100, "", 0, true, 0⟩,
       ⟨"nT", "h", 3, 1000, 1000, "", 0, true, 0⟩]).map
        (fun i => (i.1, i.2.2))).Nodup) := by
  constructor <;> decide
